import Mathlib

/-!
Verification of the schema-registry core of skywalking-banyandb.

The development shallowly embeds the Go sources under src/:
* banyand/metadata/schema/etcd.go — the etcd-backed schema registry
  (get / update / delete / deleteGroup, key codec, event dispatch,
  incrementLastByte);
* the write-path index-field encoder MarshalIndexFieldValue.

Go byte strings are `List Nat` (each element a byte value), Go strings are
Lean `String`, protobuf messages are explicit structures, and the etcd
substrate is a small executable key-value store with a revision counter.
Definitions translated from a file that is not part of the sampled sources
carry a doc comment starting with `Modelled from the spec:`.
-/

namespace Banyan

/-! ## Byte strings and byte-lexicographic order -/

/-- Strict byte-lexicographic order on byte strings, as Go
`bytes.Compare(a, b) < 0` computes it. -/
def bytesLt : List Nat → List Nat → Bool
  | [], [] => false
  | [], _ :: _ => true
  | _ :: _, [] => false
  | a :: as, b :: bs => decide (a < b) || (a == b && bytesLt as bs)

/-- Byte-lexicographic order (less or equal, i.e. `bytes.Compare(a, b) <= 0`). -/
def bytesLe : List Nat → List Nat → Bool
  | [], _ => true
  | _ :: _, [] => false
  | a :: as, b :: bs => decide (a < b) || (a == b && bytesLe as bs)

/-- Big-endian base-256 digits of `n`, fixed width `k`. -/
def bytesBE : Nat → Nat → List Nat
  | 0, _ => []
  | k + 1, n => bytesBE k (n / 256) ++ [n % 256]

/-- Modelled from the spec: `pkg/convert.Int64ToBytes` is not among the
sampled sources. §4.4 of the spec demands a fixed-width 8-byte big-endian,
order-preserving encoding of int64 so that byte-lexicographic comparison
matches numeric ordering; the absent function is therefore modelled as the
offset-binary (sign-bit flipped) big-endian encoding, the standard
order-preserving 8-byte encoding. -/
def Int64ToBytes (i : Int) : List Nat :=
  bytesBE 8 (i + 9223372036854775808).toNat

/-- Source: `incrementLastByte` (etcd.go 583-587): `bb := []byte(key);
bb[len(bb)-1]++; return string(bb)`. Go byte increment wraps modulo 256.
The Go code panics on the empty string; the model returns `[]` there. -/
def incrementLastByte : List Nat → List Nat
  | [] => []
  | [b] => [(b + 1) % 256]
  | a :: b :: rest => a :: incrementLastByte (b :: rest)

/-- The last byte of a byte string (0 for the empty string). -/
def lastByte : List Nat → Nat
  | [] => 0
  | [b] => b
  | _ :: b :: rest => lastByte (b :: rest)

/-! ## Error taxonomy (etcd.go 45-48, the encoder error, and the entity
envelope's unsupported-kind error) -/

/-- The typed errors of the registry and the write-path encoder. -/
inductive Err where
  | groupAbsent
  | entityNotFound
  | unexpectedNumberOfEntities
  | concurrentModification
  | unsupportedTagForIndexField
  | unsupportedEntityType
deriving DecidableEq

/-! ## Write-path encoder (MarshalIndexFieldValue) -/

/-- The tagged union of tag values (`modelv1.TagValue`); `null` also stands
for an unset / unrecognized oneof variant, which Go reaches through the
default switch case. -/
inductive TagValue where
  | null
  | str (s : String)
  | int (i : Int)
  | strArray (xs : List String)
  | intArray (xs : List Int)
  | binaryData (b : List Nat)
deriving DecidableEq

/-- The bytes of a Go string (one list element per byte; strings are
modelled at character granularity). -/
def strBytes (s : String) : List Nat := s.data.map Char.toNat

/-- Source: `const strDelimiter = "\n"`. -/
def strDelimiter : String := "\n"

/-- Go `strings.Join(elems, sep)`: empty for the empty slice, otherwise the
first element followed by sep-prefixed remaining elements, folded left. -/
def stringsJoin (elems : List String) (sep : String) : String :=
  match elems with
  | [] => ""
  | x :: xs => xs.foldl (fun acc e => acc ++ sep ++ e) x

/-- Source: `MarshalIndexFieldValue` (the write-path encoder): string tags
pass through as raw bytes, int64 via `convert.Int64ToBytes`, string arrays
join with the newline delimiter, int64 arrays concatenate the 8-byte
encodings through a buffer loop, binary data passes through, and the
default case (null or unrecognized) fails with
`ErrUnsupportedTagForIndexField`. -/
def MarshalIndexFieldValue : TagValue → Except Err (List Nat)
  | .str s => .ok (strBytes s)
  | .int i => .ok (Int64ToBytes i)
  | .strArray xs => .ok (strBytes (stringsJoin xs strDelimiter))
  | .intArray xs => .ok (List.foldl (fun acc i => acc ++ Int64ToBytes i) [] xs)
  | .binaryData b => .ok b
  | .null => .error .unsupportedTagForIndexField

/-- Newline join exactly as §4.4 of the spec words it: elements joined with
a single newline delimiter, in array order. -/
def joinNewline : List String → String
  | [] => ""
  | [x] => x
  | x :: y :: xs => x ++ "\n" ++ joinNewline (y :: xs)

/-- The reference index-field encoding, written from the words of §4.4 of
the spec, to be compared with the source function. -/
def encodeIndexFieldSpec : TagValue → Except Err (List Nat)
  | .str s => .ok (strBytes s)
  | .int i => .ok (Int64ToBytes i)
  | .strArray xs => .ok (strBytes (joinNewline xs))
  | .intArray xs => .ok (List.flatten (List.map Int64ToBytes xs))
  | .binaryData b => .ok b
  | .null => .error .unsupportedTagForIndexField

/-! ## Key codec (etcd.go 52-57, 559-587)

Source constant names end in `...KeyPrefix`; they are rendered here with the
suffix `KeyPre` (`GroupsKeyPre` embeds `GroupsKeyPrefix`, and so on). -/

/-- Source: `GroupsKeyPrefix = "/groups/"`. -/
def GroupsKeyPre : String := "/groups/"

/-- Source: `GroupMetadataKey = "/__meta_group__"`. -/
def GroupMetadataKey : String := "/__meta_group__"

/-- Source: `StreamKeyPrefix = "/streams/"`. -/
def StreamKeyPre : String := "/streams/"

/-- Source: `IndexRuleBindingKeyPrefix = "/index-rule-bindings/"`. -/
def IndexRuleBindingKeyPre : String := "/index-rule-bindings/"

/-- Source: `IndexRuleKeyPrefix = "/index-rules/"`. -/
def IndexRuleKeyPre : String := "/index-rules/"

/-- Source: `MeasureKeyPrefix = "/measures/"`. -/
def MeasureKeyPre : String := "/measures/"

/-- Source: `formatKey(entityPrefix, metadata)` (etcd.go 575-577); the
metadata argument is flattened to its group and name. -/
def formatKey (entityPre group name : String) : String :=
  GroupsKeyPre ++ group ++ entityPre ++ name

/-- Source: `formatGroupKey` (etcd.go 579-581). -/
def formatGroupKey (group : String) : String :=
  GroupsKeyPre ++ group ++ GroupMetadataKey

/-- Source: `formatStreamKey` (etcd.go 567-569). -/
def formatStreamKey (group name : String) : String :=
  formatKey StreamKeyPre group name

/-- Source: `formatMeasureKey` (etcd.go 571-573). -/
def formatMeasureKey (group name : String) : String :=
  formatKey MeasureKeyPre group name

/-- Source: `formatIndexRuleKey` (etcd.go 559-561). -/
def formatIndexRuleKey (group name : String) : String :=
  formatKey IndexRuleKeyPre group name

/-- Source: `formatIndexRuleBindingKey` (etcd.go 563-565). -/
def formatIndexRuleBindingKey (group name : String) : String :=
  formatKey IndexRuleBindingKeyPre group name

/-- The identity of a persisted entity: a group is identified by its one
name (the code keys a group on `metadata.name` alone, with no enclosing
group), every other kind by its (group, name) pair. -/
inductive EntityId where
  | group (g : String)
  | stream (g n : String)
  | measure (g n : String)
  | indexRule (g n : String)
  | indexRuleBinding (g n : String)
deriving DecidableEq

/-- The key the codec computes for an identity, by the format function of
its kind. -/
def keyOf : EntityId → String
  | .group g => formatGroupKey g
  | .stream g n => formatStreamKey g n
  | .measure g n => formatMeasureKey g n
  | .indexRule g n => formatIndexRuleKey g n
  | .indexRuleBinding g n => formatIndexRuleBindingKey g n

/-- `s` contains no path separator. -/
def noSlash (s : String) : Bool := decide ('/' ∉ s.data)

/-- All identifier components of an identity are slash-free. -/
def EntityId.wf : EntityId → Bool
  | .group g => noSlash g
  | .stream g n | .measure g n | .indexRule g n | .indexRuleBinding g n =>
      noSlash g && noSlash n

/-- The group component of an identity. -/
def groupOf : EntityId → String
  | .group g | .stream g _ | .measure g _ | .indexRule g _ | .indexRuleBinding g _ => g

/-- The slash-free key segment that names the kind of an identity inside
its computed key. -/
def segOf : EntityId → List Char
  | .group _ => "__meta_group__".data
  | .stream _ _ => "streams".data
  | .measure _ _ => "measures".data
  | .indexRule _ _ => "index-rules".data
  | .indexRuleBinding _ _ => "index-rule-bindings".data

/-- What follows the kind segment inside the computed key: nothing for a
group, a slash and the entity name otherwise. -/
def tailOf : EntityId → List Char
  | .group _ => []
  | .stream _ n | .measure _ n | .indexRule _ n | .indexRuleBinding _ n => '/' :: n.data

/-! ## Entity kinds and event dispatch (etcd.go 87-132) -/

/-- Modelled from the spec: the `Kind` bit constants live in the entity
envelope file, which is not among the sampled sources; §4.3 fixes the
bitmask test and §9 the closed set of five kinds, so the kinds are five
distinct bits and `KindMask` their union. -/
def KindGroup : Nat := 1

/-- Modelled from the spec: see `KindGroup`. -/
def KindStream : Nat := 2

/-- Modelled from the spec: see `KindGroup`. -/
def KindIndexRuleBinding : Nat := 4

/-- Modelled from the spec: see `KindGroup`. -/
def KindIndexRule : Nat := 8

/-- Modelled from the spec: see `KindGroup`. -/
def KindMeasure : Nat := 16

/-- Modelled from the spec: see `KindGroup`. -/
def KindMask : Nat :=
  KindGroup ||| KindStream ||| KindIndexRuleBinding ||| KindIndexRule ||| KindMeasure

/-- Source: `eventHandler` (etcd.go 87-90): an interest mask plus the
registered callback; the callback object is represented by the numeric
registration id used in the dispatch traces. -/
structure EventHandler where
  id : Nat
  interestKeys : Nat
deriving DecidableEq

/-- Source: `(*eventHandler).InterestOf` (etcd.go 92-94):
`KindMask & kind & eh.interestKeys != 0`. -/
def InterestOf (eh : EventHandler) (kind : Nat) : Bool :=
  KindMask &&& kind &&& eh.interestKeys != 0

/-! ## Entity envelope and substrate store -/

/-- An unmarshalled protobuf entity: the metadata identity fields plus the
revision fields (readonly to clients but present on the wire) and the
remaining kind-specific payload, collapsed into opaque bytes. -/
structure EntityData where
  group : String
  name : String
  createRevision : Int
  modRevision : Int
  body : List Nat
deriving DecidableEq

/-- Source: `TypeMeta` of the entity envelope as the etcd.go call sites
populate it: a kind bit, a group and a name. -/
structure TypeMeta where
  kind : Nat
  group : String
  name : String
deriving DecidableEq

/-- Source: `Metadata` (the envelope passed to update/delete): a `TypeMeta`
plus the entity payload (`Spec`). Marshalling is modelled as the identity,
so the stored value of an entity is its `EntityData` itself and
`metadata.Equal` (proto equality) is equality of `EntityData`. -/
structure Metadata extends TypeMeta where
  spec : EntityData
deriving DecidableEq

/-- Modelled from the spec: `Metadata.Key` of the entity envelope is not
among the sampled sources; §6 fixes the persisted key layout and the
sampled call sites (UpdateGroup populates only the name; the format
functions take group and name) fix the dispatch: a group keys on its name
through `formatGroupKey`, the other kinds on (group, name) through the
format function of the kind, and an unknown kind fails. -/
def Metadata.key (m : Metadata) : Except Err String :=
  if m.kind = KindGroup then .ok (formatGroupKey m.name)
  else if m.kind = KindStream then .ok (formatStreamKey m.group m.name)
  else if m.kind = KindMeasure then .ok (formatMeasureKey m.group m.name)
  else if m.kind = KindIndexRule then .ok (formatIndexRuleKey m.group m.name)
  else if m.kind = KindIndexRuleBinding then .ok (formatIndexRuleBindingKey m.group m.name)
  else .error .unsupportedEntityType

/-- Source: `notifyUpdate` (etcd.go 118-124): walk the registered handlers
in order and invoke `OnAddOrUpdate` on each interested one. The result is
the ordered trace of invocations (handler id, notified metadata). -/
def notifyUpdate (hs : List EventHandler) (m : Metadata) : List (Nat × Metadata) :=
  match hs with
  | [] => []
  | h :: rest =>
      if InterestOf h m.kind then (h.id, m) :: notifyUpdate rest m
      else notifyUpdate rest m

/-- Source: `notifyDelete` (etcd.go 126-132), same shape as `notifyUpdate`
with `OnDelete`. -/
def notifyDelete (hs : List EventHandler) (m : Metadata) : List (Nat × Metadata) :=
  match hs with
  | [] => []
  | h :: rest =>
      if InterestOf h m.kind then (h.id, m) :: notifyDelete rest m
      else notifyDelete rest m

/-- One stored key-value record of the etcd substrate: the entity value and
the substrate-assigned creation and modification revisions. -/
structure Record where
  value : EntityData
  createRevision : Int
  modRevision : Int
deriving DecidableEq

/-- The etcd substrate: a revision counter and the stored records, keyed by
path. A real substrate holds at most one record per key; the association
list deliberately permits several so the defensive multi-record guards of
the code are exercisable. -/
structure Store where
  rev : Int
  data : List (String × Record)
deriving DecidableEq

/-- Substrate point get: every record stored at `key`, in store order
(`resp.Kvs`, with `resp.Count` its length). -/
def Store.get (σ : Store) (key : String) : List Record :=
  (σ.data.filter (fun p => p.1 == key)).map (fun p => p.2)

/-- The creation revision a put at `key` assigns: preserved from the
existing record, or the fresh revision on first insert. -/
def Store.createRevOnPut (σ : Store) (key : String) : Int :=
  match σ.get key with
  | [] => σ.rev + 1
  | r :: _ => r.createRevision

/-- Substrate put: bump the revision counter and replace the records at
`key` by one record carrying the new value and revisions. -/
def Store.put (σ : Store) (key : String) (v : EntityData) : Store :=
  ⟨σ.rev + 1,
    σ.data.filter (fun p => !(p.1 == key)) ++
      [(key, ⟨v, σ.createRevOnPut key, σ.rev + 1⟩)]⟩

/-- The modification revision etcd compares a transaction guard against:
the stored record's, or 0 when the key is absent. -/
def Store.modRevisionOf (σ : Store) (key : String) : Int :=
  match σ.get key with
  | [] => 0
  | r :: _ => r.modRevision

/-- The substrate transaction `If(ModRevision(key) = r).Then(Put(key, v))`:
one atomic conditional write. Returns `txnResp.Succeeded` and the store
after the transaction (unchanged when the comparison fails). -/
def Store.txnPutIfModRev (σ : Store) (key : String) (r : Int) (v : EntityData) :
    Bool × Store :=
  if σ.modRevisionOf key = r then (true, σ.put key v) else (false, σ)

/-- Substrate point delete with `WithPrevKV`: the store after removal, the
number of deleted records, and the previous records. -/
def Store.del (σ : Store) (key : String) : Store × Nat × List Record :=
  let prev := σ.get key
  (⟨σ.rev + (if prev.isEmpty then 0 else 1),
    σ.data.filter (fun p => !(p.1 == key))⟩, prev.length, prev)

/-! ## Registry operations (etcd.go 428-557, 164-185) -/

/-- Strict lexicographic order on character lists by code point (Go byte
comparison of the underlying key strings). -/
def charsLt : List Char → List Char → Bool
  | [], [] => false
  | [], _ :: _ => true
  | _ :: _, [] => false
  | a :: as, b :: bs =>
      decide (a.toNat < b.toNat) || (a == b && charsLt as bs)

/-- Lexicographic order (less or equal) on character lists. -/
def charsLe : List Char → List Char → Bool
  | [], _ => true
  | _ :: _, [] => false
  | a :: as, b :: bs =>
      decide (a.toNat < b.toNat) || (a == b && charsLe as bs)

/-- Strict lexicographic order on keys. -/
def strLtB (a b : String) : Bool := charsLt a.data b.data

/-- Lexicographic order (less or equal) on keys. -/
def strLeB (a b : String) : Bool := charsLe a.data b.data

/-- `incrementLastByte` applied to a key string (the Go function converts
the string to bytes, increments the last one and converts back). -/
def incLastChar : List Char → List Char
  | [] => []
  | [c] => [Char.ofNat ((c.toNat + 1) % 256)]
  | a :: b :: rest => a :: incLastChar (b :: rest)

/-- String form of `incrementLastByte`, used to bound range operations. -/
def incrementLastByteStr (s : String) : String := String.mk (incLastChar s.data)

/-- Substrate range delete over the half-open key interval `[lo, hi)`:
the store after removal and `resp.Deleted`. -/
def Store.rangeDel (σ : Store) (lo hi : String) : Store × Nat :=
  let hit := fun (p : String × Record) => strLeB lo p.1 && strLtB p.1 hi
  let removed := σ.data.filter hit
  (⟨σ.rev + (if removed.isEmpty then 0 else 1),
    σ.data.filter (fun p => !(hit p))⟩, removed.length)

/-- Source: `(*etcdSchemaRegistry).get` (etcd.go 428-448): point read,
`ErrEntityNotFound` on zero records, `ErrUnexpectedNumberOfEntities` on
more than one, otherwise unmarshal the stored value and overwrite its
create/mod revision fields with the substrate's authoritative values. -/
def Registry.get (σ : Store) (key : String) : Except Err EntityData :=
  match σ.get key with
  | [] => .error .entityNotFound
  | [r] =>
      .ok { r.value with
              createRevision := r.createRevision,
              modRevision := r.modRevision }
  | _ :: _ :: _ => .error .unexpectedNumberOfEntities

/-- Source: `GetGroup` (etcd.go 134-141): a get at the group metadata key. -/
def Registry.getGroup (σ : Store) (group : String) : Except Err EntityData :=
  Registry.get σ (formatGroupKey group)

/-- Source: `(*etcdSchemaRegistry).update` (etcd.go 450-496).

The store argument is passed twice to expose the two substrate round trips
of the code: `σr` is the store at the initial `kv.Get`, `σw` the store at
the moment the conditional transaction (or the plain put of the insert
path) executes. A sequential call has `σw = σr`; a concurrent writer that
commits between the read and the write is an arbitrary `σw`. The result is
the returned error (if any), the store after the call, and the ordered
trace of update notifications. -/
def Registry.update (σr σw : Store) (hs : List EventHandler) (m : Metadata) :
    Except Err Unit × Store × List (Nat × Metadata) :=
  match m.key with
  | .error e => (.error e, σw, [])
  | .ok key =>
    match σr.get key with
    | _ :: _ :: _ => (.error .unexpectedNumberOfEntities, σw, [])
    | [existing] =>
      -- directly return if we have the same entity
      if m.spec = existing.value then (.ok (), σw, [])
      else
        match σw.txnPutIfModRev key existing.modRevision m.spec with
        | (true, σ2) => (.ok (), σ2, notifyUpdate hs m)
        | (false, σ2) => (.error .concurrentModification, σ2, [])
    | [] => (.ok (), σw.put key m.spec, notifyUpdate hs m)

/-- Source: `(*etcdSchemaRegistry).delete` (etcd.go 523-557): point delete
with previous value; when exactly one record was deleted, decode the
previous value and dispatch a delete notification (decoding always
succeeds in the model, where values are structured), then report deleted;
otherwise report not deleted with no error. -/
def Registry.delete (σ : Store) (hs : List EventHandler) (m : Metadata) :
    Except Err Bool × Store × List (Nat × Metadata) :=
  match m.key with
  | .error e => (.error e, σ, [])
  | .ok key =>
    match σ.del key with
    | (σ2, deleted, prevs) =>
      if deleted = 1 then
        match prevs.head? with
        | some prev =>
            (.ok true, σ2,
              notifyDelete hs ⟨⟨m.kind, m.group, m.name⟩, prev.value⟩)
        | none => (.ok true, σ2, [])
      else (.ok false, σ2, [])

/-- Source: `DeleteGroup` (etcd.go 164-185): read the group (propagating
the wrapped error when it fails), range-delete the whole group subtree
bounded by the incremented prefix, and on a positive deletion count notify
a group-level delete carrying the prior group entity; returns deleted with
no error on every path that passed the initial read. -/
def Registry.deleteGroup (σ : Store) (hs : List EventHandler) (group : String) :
    Except Err Bool × Store × List (Nat × Metadata) :=
  match Registry.getGroup σ group with
  | .error e => (.error e, σ, [])
  | .ok g =>
    let keyPre := GroupsKeyPre ++ g.name ++ "/"
    match σ.rangeDel keyPre (incrementLastByteStr keyPre) with
    | (σ2, deleted) =>
      if deleted > 0 then
        (.ok true, σ2, notifyDelete hs ⟨⟨KindGroup, "", group⟩, g⟩)
      else (.ok true, σ2, [])

end Banyan

deriving instance DecidableEq for Except

namespace Banyan

/-! ## Store lemmas -/

theorem filter_ne_key_of_get_nil (σ : Store) (key : String) (h : σ.get key = []) :
    σ.data.filter (fun p => !(p.1 == key)) = σ.data := by
  have h1 : σ.data.filter (fun p => p.1 == key) = [] := by
    have h2 := h
    unfold Store.get at h2
    exact List.map_eq_nil_iff.mp h2
  rw [List.filter_eq_nil_iff] at h1
  rw [List.filter_eq_self]
  intro a ha
  simpa using h1 a ha

theorem store_get_put_self (σ : Store) (key : String) (v : EntityData) :
    (σ.put key v).get key = [⟨v, σ.createRevOnPut key, σ.rev + 1⟩] := by
  unfold Store.get Store.put
  simp [List.filter_append, List.filter_filter]

theorem store_del_absent (σ : Store) (key : String) (h : σ.get key = []) :
    σ.del key = (σ, 0, []) := by
  unfold Store.del
  rw [h, filter_ne_key_of_get_nil σ key h]
  simp

/-! ## Claim theorems -/

/-- Claim C1: for an entity whose key is present with a stored value not
equal to the new value, update issues the one conditional write guarded by
the observed modification revision: when a concurrent writer changed that
revision the call fails with `concurrentModification`, leaves the store
exactly as the concurrent writer left it (no partial state change) and
dispatches no update notification; when the revision is unchanged the
conditional write commits and the notification is dispatched. -/
theorem update_concurrent_modification_spec
    (σr σw : Store) (hs : List EventHandler) (m : Metadata) (key : String) (r₀ : Record)
    (hk : m.key = .ok key) (hget : σr.get key = [r₀]) (hne : m.spec ≠ r₀.value) :
    (σw.modRevisionOf key ≠ r₀.modRevision →
      Registry.update σr σw hs m = (.error .concurrentModification, σw, []))
    ∧ (σw.modRevisionOf key = r₀.modRevision →
      Registry.update σr σw hs m = (.ok (), σw.put key m.spec, notifyUpdate hs m)) := by
  unfold Registry.update Store.txnPutIfModRev
  constructor
  · intro h2
    simp only [hk, hget, if_neg hne, if_neg h2]
  · intro h2
    simp only [hk, hget, if_neg hne, if_pos h2]

/-- Claim C1 witness: a concrete concurrent interleaving on one key. -/
theorem update_concurrent_modification_spec_witness :
    (Metadata.key ⟨⟨KindStream, "default", "sw"⟩, ⟨"default", "sw", 0, 0, [1]⟩⟩ =
        .ok "/groups/default/streams/sw")
    ∧ ((⟨3, [("/groups/default/streams/sw", ⟨⟨"default", "sw", 0, 0, [2]⟩, 1, 1⟩)]⟩ : Store).get
        "/groups/default/streams/sw" = [⟨⟨"default", "sw", 0, 0, [2]⟩, 1, 1⟩])
    ∧ ((⟨4, [("/groups/default/streams/sw", ⟨⟨"default", "sw", 0, 0, [3]⟩, 1, 4⟩)]⟩ : Store).modRevisionOf
        "/groups/default/streams/sw" ≠ (1 : Int))
    ∧ Registry.update
        ⟨3, [("/groups/default/streams/sw", ⟨⟨"default", "sw", 0, 0, [2]⟩, 1, 1⟩)]⟩
        ⟨4, [("/groups/default/streams/sw", ⟨⟨"default", "sw", 0, 0, [3]⟩, 1, 4⟩)]⟩
        [⟨7, 2⟩] ⟨⟨KindStream, "default", "sw"⟩, ⟨"default", "sw", 0, 0, [1]⟩⟩ =
        (.error .concurrentModification,
          ⟨4, [("/groups/default/streams/sw", ⟨⟨"default", "sw", 0, 0, [3]⟩, 1, 4⟩)]⟩, []) :=
  ⟨by decide, by decide, by decide,
    (update_concurrent_modification_spec
      ⟨3, [("/groups/default/streams/sw", ⟨⟨"default", "sw", 0, 0, [2]⟩, 1, 1⟩)]⟩
      ⟨4, [("/groups/default/streams/sw", ⟨⟨"default", "sw", 0, 0, [3]⟩, 1, 4⟩)]⟩
      [⟨7, 2⟩] ⟨⟨KindStream, "default", "sw"⟩, ⟨"default", "sw", 0, 0, [1]⟩⟩
      "/groups/default/streams/sw" ⟨⟨"default", "sw", 0, 0, [2]⟩, 1, 1⟩
      (by decide) (by decide) (by decide)).1 (by decide)⟩

/-- Claim C2: when the stored value equals the value being written, update
returns success without any write — store (hence stored bytes and
mod revision) unchanged — and dispatches no notification; consequently a
second consecutive update with the identical entity after any successful
update performs no write and dispatches nothing. -/
theorem update_idempotent_noop_spec (hs : List EventHandler) (m : Metadata) :
    (∀ (σ : Store) (key : String) (r : Record),
        m.key = .ok key → σ.get key = [r] → r.value = m.spec →
        Registry.update σ σ hs m = (.ok (), σ, []))
    ∧ (∀ (σ σ2 : Store) (ns : List (Nat × Metadata)),
        Registry.update σ σ hs m = (.ok (), σ2, ns) →
        Registry.update σ2 σ2 hs m = (.ok (), σ2, [])) := by
  constructor
  · intro σ key r hk hget hval
    unfold Registry.update
    simp only [hk, hget, if_pos hval.symm]
  · intro σ σ2 ns h
    cases hk : m.key with
    | error e =>
        unfold Registry.update at h
        simp only [hk] at h
        have := congrArg Prod.fst h
        simp at this
    | ok key =>
        have hput : ∀ σp : Store, σp.put key m.spec = σ2 →
            Registry.update σ2 σ2 hs m = (.ok (), σ2, []) := by
          intro σp hp
          have hg2 : σ2.get key = [⟨m.spec, σp.createRevOnPut key, σp.rev + 1⟩] := by
            rw [← hp]; exact store_get_put_self σp key m.spec
          unfold Registry.update
          simp [hk, hg2]
        unfold Registry.update at h
        simp only [hk] at h
        cases hget : σ.get key with
        | nil =>
            simp only [hget] at h
            exact hput σ (congrArg (fun x => x.2.1) h)
        | cons r tl =>
            cases tl with
            | nil =>
                simp only [hget] at h
                by_cases hv : m.spec = r.value
                · rw [if_pos hv] at h
                  have hσ : σ = σ2 := congrArg (fun x => x.2.1) h
                  subst hσ
                  unfold Registry.update
                  simp only [hk, hget, if_pos hv]
                · rw [if_neg hv] at h
                  have hrev : σ.modRevisionOf key = r.modRevision := by
                    unfold Store.modRevisionOf
                    rw [hget]
                  unfold Store.txnPutIfModRev at h
                  rw [if_pos hrev] at h
                  exact hput σ (congrArg (fun x => x.2.1) h)
            | cons r2 tl2 =>
                simp only [hget] at h
                have := congrArg Prod.fst h
                simp at this

/-- Claim C2 witness: updating an already-equal entity is a no-op, and the
update after a successful insert is a no-op. -/
theorem update_idempotent_noop_spec_witness :
    (Metadata.key ⟨⟨KindStream, "default", "sw"⟩, ⟨"default", "sw", 0, 0, [1]⟩⟩ =
        .ok "/groups/default/streams/sw")
    ∧ ((⟨3, [("/groups/default/streams/sw", ⟨⟨"default", "sw", 0, 0, [1]⟩, 1, 1⟩)]⟩ : Store).get
        "/groups/default/streams/sw" = [⟨⟨"default", "sw", 0, 0, [1]⟩, 1, 1⟩])
    ∧ Registry.update
        ⟨3, [("/groups/default/streams/sw", ⟨⟨"default", "sw", 0, 0, [1]⟩, 1, 1⟩)]⟩
        ⟨3, [("/groups/default/streams/sw", ⟨⟨"default", "sw", 0, 0, [1]⟩, 1, 1⟩)]⟩
        [⟨7, 2⟩] ⟨⟨KindStream, "default", "sw"⟩, ⟨"default", "sw", 0, 0, [1]⟩⟩ =
        (.ok (),
          ⟨3, [("/groups/default/streams/sw", ⟨⟨"default", "sw", 0, 0, [1]⟩, 1, 1⟩)]⟩, []) :=
  ⟨by decide, by decide,
    (update_idempotent_noop_spec [⟨7, 2⟩]
        ⟨⟨KindStream, "default", "sw"⟩, ⟨"default", "sw", 0, 0, [1]⟩⟩).1
      ⟨3, [("/groups/default/streams/sw", ⟨⟨"default", "sw", 0, 0, [1]⟩, 1, 1⟩)]⟩
      "/groups/default/streams/sw" ⟨⟨"default", "sw", 0, 0, [1]⟩, 1, 1⟩
      (by decide) (by decide) (by decide)⟩

/-- Claim C3: get fails with `entityNotFound` on an absent key, with
`unexpectedNumberOfEntities` when more than one record matches, and on
success returns the stored entity with its create/mod revision fields
overwritten by the substrate revisions of the record (whatever revision
values the stored entity carried are discarded). -/
theorem get_revisions_and_errors_spec (σ : Store) (key : String) :
    (σ.get key = [] → Registry.get σ key = .error .entityNotFound)
    ∧ (∀ r₁ r₂ rest, σ.get key = r₁ :: r₂ :: rest →
        Registry.get σ key = .error .unexpectedNumberOfEntities)
    ∧ (∀ r, σ.get key = [r] →
        Registry.get σ key =
          .ok ⟨r.value.group, r.value.name, r.createRevision, r.modRevision, r.value.body⟩) := by
  refine ⟨fun h => ?_, fun r₁ r₂ rest h => ?_, fun r h => ?_⟩ <;>
    · unfold Registry.get
      simp only [h]

/-- Claim C3 witness: a stored entity carrying stale revision fields 99/98
comes back with the substrate revisions 7/8; the two error paths at their
concrete stores. -/
theorem get_revisions_and_errors_spec_witness :
    ((⟨0, []⟩ : Store).get "k" = [] ∧ Registry.get ⟨0, []⟩ "k" = .error .entityNotFound)
    ∧ ((⟨9, [("k", ⟨⟨"g", "n", 0, 0, []⟩, 1, 1⟩), ("k", ⟨⟨"g", "n", 0, 0, []⟩, 2, 2⟩)]⟩ : Store).get
          "k" = [⟨⟨"g", "n", 0, 0, []⟩, 1, 1⟩, ⟨⟨"g", "n", 0, 0, []⟩, 2, 2⟩]
        ∧ Registry.get ⟨9, [("k", ⟨⟨"g", "n", 0, 0, []⟩, 1, 1⟩), ("k", ⟨⟨"g", "n", 0, 0, []⟩, 2, 2⟩)]⟩
            "k" = .error .unexpectedNumberOfEntities)
    ∧ ((⟨9, [("k", ⟨⟨"g", "n", 99, 98, [5]⟩, 7, 8⟩)]⟩ : Store).get "k" =
          [⟨⟨"g", "n", 99, 98, [5]⟩, 7, 8⟩]
        ∧ Registry.get ⟨9, [("k", ⟨⟨"g", "n", 99, 98, [5]⟩, 7, 8⟩)]⟩ "k" =
            .ok ⟨"g", "n", 7, 8, [5]⟩) :=
  ⟨⟨by decide, (get_revisions_and_errors_spec ⟨0, []⟩ "k").1 (by decide)⟩,
    ⟨by decide,
      (get_revisions_and_errors_spec _ "k").2.1 ⟨⟨"g", "n", 0, 0, []⟩, 1, 1⟩
        ⟨⟨"g", "n", 0, 0, []⟩, 2, 2⟩ [] (by decide)⟩,
    ⟨by decide,
      (get_revisions_and_errors_spec _ "k").2.2 ⟨⟨"g", "n", 99, 98, [5]⟩, 7, 8⟩ (by decide)⟩⟩

/-- Claim C4 counterexample: the claim asserts that for every entity kind,
Group included, delete on an absent key returns not-deleted with no error;
but `DeleteGroup` of an absent group propagates the `entityNotFound` error
of its initial read instead of the error-free not-deleted result. -/
theorem deleteGroup_absent_counterexample :
    Registry.deleteGroup ⟨0, []⟩ [] "g" = (.error .entityNotFound, ⟨0, []⟩, [])
    ∧ (Registry.deleteGroup ⟨0, []⟩ [] "g").1 ≠ .ok false := by
  constructor
  · rfl
  · decide

/-- Claim C4 (amended): for the four non-group kinds (Stream, Measure,
IndexRule, IndexRuleBinding) delete of an absent key returns not-deleted
with no error, leaves the store unchanged and fires no delete
notification; `DeleteGroup` of an absent group instead fails with the
`entityNotFound` error, also leaving the store unchanged and firing no
notification. -/
theorem delete_absent_noop_spec (σ : Store) (hs : List EventHandler) (m : Metadata)
    (key : String)
    (hkind : m.kind = KindStream ∨ m.kind = KindMeasure ∨ m.kind = KindIndexRule ∨
      m.kind = KindIndexRuleBinding)
    (hk : m.key = .ok key) (habsent : σ.get key = []) :
    Registry.delete σ hs m = (.ok false, σ, [])
    ∧ ∀ g, σ.get (formatGroupKey g) = [] →
        Registry.deleteGroup σ hs g = (.error .entityNotFound, σ, []) := by
  constructor
  · unfold Registry.delete
    simp [hk, store_del_absent σ key habsent]
  · intro g hg
    unfold Registry.deleteGroup Registry.getGroup Registry.get
    simp only [hg]

/-- Claim C4 witness: a concrete absent stream identity and a concrete
absent group on a nonempty store. -/
theorem delete_absent_noop_spec_witness :
    ((⟨2, [("x", ⟨⟨"g", "n", 0, 0, []⟩, 1, 1⟩)]⟩ : Store).get
        "/groups/default/streams/sw" = [])
    ∧ (Metadata.key ⟨⟨KindStream, "default", "sw"⟩, ⟨"default", "sw", 0, 0, []⟩⟩ =
        .ok "/groups/default/streams/sw")
    ∧ Registry.delete ⟨2, [("x", ⟨⟨"g", "n", 0, 0, []⟩, 1, 1⟩)]⟩ [⟨7, 2⟩]
        ⟨⟨KindStream, "default", "sw"⟩, ⟨"default", "sw", 0, 0, []⟩⟩ =
        (.ok false, ⟨2, [("x", ⟨⟨"g", "n", 0, 0, []⟩, 1, 1⟩)]⟩, [])
    ∧ Registry.deleteGroup ⟨2, [("x", ⟨⟨"g", "n", 0, 0, []⟩, 1, 1⟩)]⟩ [⟨7, 2⟩] "default" =
        (.error .entityNotFound, ⟨2, [("x", ⟨⟨"g", "n", 0, 0, []⟩, 1, 1⟩)]⟩, []) :=
  ⟨by decide, by decide,
    (delete_absent_noop_spec ⟨2, [("x", ⟨⟨"g", "n", 0, 0, []⟩, 1, 1⟩)]⟩ [⟨7, 2⟩]
        ⟨⟨KindStream, "default", "sw"⟩, ⟨"default", "sw", 0, 0, []⟩⟩
        "/groups/default/streams/sw" (Or.inl (by decide)) (by decide) (by decide)).1,
    (delete_absent_noop_spec ⟨2, [("x", ⟨⟨"g", "n", 0, 0, []⟩, 1, 1⟩)]⟩ [⟨7, 2⟩]
        ⟨⟨KindStream, "default", "sw"⟩, ⟨"default", "sw", 0, 0, []⟩⟩
        "/groups/default/streams/sw" (Or.inl (by decide)) (by decide) (by decide)).2
      "default" (by decide)⟩

/-- Claim C10: when the initial read of update observes more than one
record at the key, update fails with `unexpectedNumberOfEntities`, writes
nothing (the store is exactly the store at write time) and dispatches no
notification. -/
theorem update_multi_record_guard_spec
    (σr σw : Store) (hs : List EventHandler) (m : Metadata) (key : String)
    (r₁ r₂ : Record) (rest : List Record)
    (hk : m.key = .ok key) (hget : σr.get key = r₁ :: r₂ :: rest) :
    Registry.update σr σw hs m = (.error .unexpectedNumberOfEntities, σw, []) := by
  unfold Registry.update
  simp only [hk, hget]

/-- Claim C10 witness: two records at one key make update fail with the
multi-record guard and leave the store untouched. -/
theorem update_multi_record_guard_spec_witness :
    (Metadata.key ⟨⟨KindStream, "default", "sw"⟩, ⟨"default", "sw", 0, 0, [1]⟩⟩ =
        .ok "/groups/default/streams/sw")
    ∧ ((⟨9, [("/groups/default/streams/sw", ⟨⟨"default", "sw", 0, 0, [2]⟩, 1, 1⟩),
          ("/groups/default/streams/sw", ⟨⟨"default", "sw", 0, 0, [3]⟩, 2, 2⟩)]⟩ : Store).get
        "/groups/default/streams/sw" =
        [⟨⟨"default", "sw", 0, 0, [2]⟩, 1, 1⟩, ⟨⟨"default", "sw", 0, 0, [3]⟩, 2, 2⟩])
    ∧ Registry.update
        ⟨9, [("/groups/default/streams/sw", ⟨⟨"default", "sw", 0, 0, [2]⟩, 1, 1⟩),
          ("/groups/default/streams/sw", ⟨⟨"default", "sw", 0, 0, [3]⟩, 2, 2⟩)]⟩
        ⟨9, [("/groups/default/streams/sw", ⟨⟨"default", "sw", 0, 0, [2]⟩, 1, 1⟩),
          ("/groups/default/streams/sw", ⟨⟨"default", "sw", 0, 0, [3]⟩, 2, 2⟩)]⟩
        [⟨7, 2⟩] ⟨⟨KindStream, "default", "sw"⟩, ⟨"default", "sw", 0, 0, [1]⟩⟩ =
        (.error .unexpectedNumberOfEntities,
          ⟨9, [("/groups/default/streams/sw", ⟨⟨"default", "sw", 0, 0, [2]⟩, 1, 1⟩),
            ("/groups/default/streams/sw", ⟨⟨"default", "sw", 0, 0, [3]⟩, 2, 2⟩)]⟩, []) :=
  ⟨by decide, by decide,
    update_multi_record_guard_spec
      ⟨9, [("/groups/default/streams/sw", ⟨⟨"default", "sw", 0, 0, [2]⟩, 1, 1⟩),
        ("/groups/default/streams/sw", ⟨⟨"default", "sw", 0, 0, [3]⟩, 2, 2⟩)]⟩
      ⟨9, [("/groups/default/streams/sw", ⟨⟨"default", "sw", 0, 0, [2]⟩, 1, 1⟩),
        ("/groups/default/streams/sw", ⟨⟨"default", "sw", 0, 0, [3]⟩, 2, 2⟩)]⟩
      [⟨7, 2⟩] ⟨⟨KindStream, "default", "sw"⟩, ⟨"default", "sw", 0, 0, [1]⟩⟩
      "/groups/default/streams/sw"
      ⟨⟨"default", "sw", 0, 0, [2]⟩, 1, 1⟩ ⟨⟨"default", "sw", 0, 0, [3]⟩, 2, 2⟩ []
      (by decide) (by decide)⟩

/-! ## Encoder refinement (C6) -/

theorem joinNewline_foldl (xs : List String) :
    ∀ a : String, xs.foldl (fun acc e => acc ++ "\n" ++ e) a =
      (if xs.isEmpty then a else a ++ "\n" ++ joinNewline xs) := by
  induction xs with
  | nil => intro a; rfl
  | cons y ys ih =>
      intro a
      simp only [List.foldl, ih (a ++ "\n" ++ y)]
      cases ys with
      | nil => rfl
      | cons z zs => simp [joinNewline, String.append_assoc]

theorem stringsJoin_eq_joinNewline (xs : List String) :
    stringsJoin xs strDelimiter = joinNewline xs := by
  cases xs with
  | nil => rfl
  | cons y ys =>
      show ys.foldl (fun acc e => acc ++ "\n" ++ e) y = joinNewline (y :: ys)
      rw [joinNewline_foldl]
      cases ys <;> rfl

theorem foldl_append_int64 (xs : List Int) :
    ∀ acc : List Nat, xs.foldl (fun acc i => acc ++ Int64ToBytes i) acc =
      acc ++ List.flatten (List.map Int64ToBytes xs) := by
  induction xs with
  | nil => intro acc; simp
  | cons y ys ih =>
      intro acc
      simp only [List.foldl, List.map, List.flatten, ih (acc ++ Int64ToBytes y)]
      rw [List.append_assoc]

/-- Claim C6: the source encoder `MarshalIndexFieldValue` equals the
reference encoding written from the words of the spec on every tag value;
in particular the string array ["a", "b"] encodes to the bytes of "a\nb"
and the null variant fails with the unsupported-tag error. -/
theorem marshalIndexFieldValue_refines_spec :
    (∀ t, MarshalIndexFieldValue t = encodeIndexFieldSpec t)
    ∧ MarshalIndexFieldValue (.strArray ["a", "b"]) = .ok (strBytes "a\nb")
    ∧ MarshalIndexFieldValue .null = .error .unsupportedTagForIndexField := by
  refine ⟨fun t => ?_, by decide, rfl⟩
  cases t with
  | strArray xs =>
      show Except.ok (strBytes (stringsJoin xs strDelimiter)) = _
      rw [stringsJoin_eq_joinNewline]
      rfl
  | intArray xs =>
      show Except.ok (List.foldl (fun acc i => acc ++ Int64ToBytes i) [] xs) = _
      rw [foldl_append_int64 xs []]
      rfl
  | _ => rfl

/-! ## Event dispatch (C9) -/

theorem interestOf_eq (h : EventHandler) (k : Nat) (hk : KindMask &&& k = k) :
    InterestOf h k = (h.interestKeys &&& k != 0) := by
  unfold InterestOf
  rw [hk, Nat.land_comm]

/-- Claim C9: on a dispatched mutation notification, exactly the handlers
whose interest mask ANDed with the mutated entity's kind is nonzero are
invoked, in registration order, for both the update and the delete
notification paths. -/
theorem notify_interest_order_spec (hs : List EventHandler) (m : Metadata)
    (hkind : KindMask &&& m.kind = m.kind) :
    notifyUpdate hs m =
      (hs.filter (fun h => h.interestKeys &&& m.kind != 0)).map (fun h => (h.id, m))
    ∧ notifyDelete hs m =
      (hs.filter (fun h => h.interestKeys &&& m.kind != 0)).map (fun h => (h.id, m)) := by
  constructor
  all_goals
    induction hs with
    | nil => rfl
    | cons h rest ih =>
        simp only [notifyUpdate, notifyDelete, List.filter_cons,
          interestOf_eq h m.kind hkind] at ih ⊢
        cases hc : (h.interestKeys &&& m.kind != 0) <;> simp [hc, ih]

/-- Claim C9 witness: three registered handlers, a stream-kind mutation;
the first and third are interested and invoked in registration order. -/
theorem notify_interest_order_spec_witness :
    (KindMask &&& KindStream = KindStream)
    ∧ notifyUpdate [⟨1, 2⟩, ⟨2, 1⟩, ⟨3, 3⟩]
        ⟨⟨KindStream, "default", "sw"⟩, ⟨"default", "sw", 0, 0, []⟩⟩ =
        [(1, ⟨⟨KindStream, "default", "sw"⟩, ⟨"default", "sw", 0, 0, []⟩⟩),
          (3, ⟨⟨KindStream, "default", "sw"⟩, ⟨"default", "sw", 0, 0, []⟩⟩)]
    ∧ notifyDelete [⟨1, 2⟩, ⟨2, 1⟩, ⟨3, 3⟩]
        ⟨⟨KindStream, "default", "sw"⟩, ⟨"default", "sw", 0, 0, []⟩⟩ =
        [(1, ⟨⟨KindStream, "default", "sw"⟩, ⟨"default", "sw", 0, 0, []⟩⟩),
          (3, ⟨⟨KindStream, "default", "sw"⟩, ⟨"default", "sw", 0, 0, []⟩⟩)] := by
  refine ⟨by decide, ?_, ?_⟩
  · rw [(notify_interest_order_spec [⟨1, 2⟩, ⟨2, 1⟩, ⟨3, 3⟩]
      ⟨⟨KindStream, "default", "sw"⟩, ⟨"default", "sw", 0, 0, []⟩⟩ (by decide)).1]
    decide
  · rw [(notify_interest_order_spec [⟨1, 2⟩, ⟨2, 1⟩, ⟨3, 3⟩]
      ⟨⟨KindStream, "default", "sw"⟩, ⟨"default", "sw", 0, 0, []⟩⟩ (by decide)).2]
    decide

/-! ## Order-preserving int64 encoding (C5) -/

theorem bytesBE_length (k : Nat) : ∀ n, (bytesBE k n).length = k := by
  induction k with
  | zero => intro n; rfl
  | succ k ih => intro n; simp [bytesBE, ih]

theorem bytesLt_last (l : List Nat) (x y : Nat) (h : x < y) :
    bytesLt (l ++ [x]) (l ++ [y]) = true := by
  induction l with
  | nil => simp [bytesLt, h]
  | cons a as ih => simp [bytesLt, ih]

theorem bytesLt_append (as : List Nat) :
    ∀ bs : List Nat, as.length = bs.length → bytesLt as bs = true →
      ∀ x y, bytesLt (as ++ [x]) (bs ++ [y]) = true := by
  induction as with
  | nil =>
      intro bs hlen h x y
      cases bs with
      | nil => simp [bytesLt] at h
      | cons b bs2 => simp at hlen
  | cons a as2 ih =>
      intro bs hlen h x y
      cases bs with
      | nil => simp at hlen
      | cons b bs2 =>
          simp only [bytesLt, Bool.or_eq_true, Bool.and_eq_true, decide_eq_true_eq,
            beq_iff_eq] at h
          simp only [List.cons_append, bytesLt, Bool.or_eq_true, Bool.and_eq_true,
            decide_eq_true_eq, beq_iff_eq]
          rcases h with h1 | ⟨h1, h2⟩
          · exact Or.inl h1
          · exact Or.inr ⟨h1, ih bs2 (by simpa using hlen) h2 x y⟩

theorem bytesBE_mono (k : Nat) :
    ∀ u v, u < 256 ^ k → v < 256 ^ k → u < v →
      bytesLt (bytesBE k u) (bytesBE k v) = true := by
  induction k with
  | zero =>
      intro u v hu hv huv
      simp only [pow_zero, Nat.lt_one_iff] at hu hv
      omega
  | succ k ih =>
      intro u v hu hv huv
      have hqu : u / 256 < 256 ^ k := by
        rw [Nat.div_lt_iff_lt_mul (by norm_num)]
        calc u < 256 ^ (k + 1) := hu
          _ = 256 ^ k * 256 := Nat.pow_succ 256 k
      have hqv : v / 256 < 256 ^ k := by
        rw [Nat.div_lt_iff_lt_mul (by norm_num)]
        calc v < 256 ^ (k + 1) := hv
          _ = 256 ^ k * 256 := Nat.pow_succ 256 k
      show bytesLt (bytesBE k (u / 256) ++ [u % 256])
        (bytesBE k (v / 256) ++ [v % 256]) = true
      rcases Nat.lt_or_ge (u / 256) (v / 256) with hlt | hge
      · exact bytesLt_append _ _ (by rw [bytesBE_length, bytesBE_length])
          (ih _ _ hqu hqv hlt) _ _
      · have heq : u / 256 = v / 256 :=
          Nat.le_antisymm (Nat.div_le_div_right (Nat.le_of_lt huv)) hge
        have hmod : u % 256 < v % 256 := by
          have h1 := Nat.div_add_mod u 256
          have h2 := Nat.div_add_mod v 256
          omega
        rw [heq]
        exact bytesLt_last _ _ _ hmod

/-- Claim C5: the index-field encoding of int64 is strictly monotone with
respect to byte-lexicographic comparison over the whole int64 range, and
always 8 bytes wide. -/
theorem int64ToBytes_order_spec (a b : Int) (ha : -(2 ^ 63) ≤ a) (hab : a < b)
    (hb : b < 2 ^ 63) :
    bytesLt (Int64ToBytes a) (Int64ToBytes b) = true
    ∧ (Int64ToBytes a).length = 8 ∧ (Int64ToBytes b).length = 8 := by
  have h1 : (256 : Nat) ^ 8 = 18446744073709551616 := by norm_num
  have h2 : (2 : Int) ^ 63 = 9223372036854775808 := by norm_num
  rw [h2] at ha hb
  refine ⟨?_, bytesBE_length 8 _, bytesBE_length 8 _⟩
  unfold Int64ToBytes
  exact bytesBE_mono 8 _ _ (by rw [h1]; omega) (by rw [h1]; omega) (by omega)

/-- Claim C5 witness: 5 and 300 are in range and encode(5) < encode(300)
byte-lexicographically, both 8 bytes wide. -/
theorem int64ToBytes_order_spec_witness :
    (-(2 ^ 63) : Int) ≤ 5 ∧ (5 : Int) < 300 ∧ (300 : Int) < 2 ^ 63
    ∧ bytesLt (Int64ToBytes 5) (Int64ToBytes 300) = true
    ∧ (Int64ToBytes 5).length = 8 ∧ (Int64ToBytes 300).length = 8 :=
  ⟨by decide, by decide, by decide,
    (int64ToBytes_order_spec 5 300 (by decide) (by decide) (by decide)).1,
    (int64ToBytes_order_spec 5 300 (by decide) (by decide) (by decide)).2.1,
    (int64ToBytes_order_spec 5 300 (by decide) (by decide) (by decide)).2.2⟩

/-! ## Prefix range bound (C8) -/

theorem bytesLt_nil_right (l : List Nat) : bytesLt l [] = false := by
  cases l <;> rfl

/-- Claim C8 counterexample: on the one-byte prefix 0xFF the incremented
bound wraps around to 0x00, and the key 0xFF 0x00, which has the prefix,
fails to lie below the bound — the computed bound does not contain the
keys with the prefix. -/
theorem incrementLastByte_range_counterexample :
    List.isPrefixOf [255] [255, 0] = true
    ∧ ¬ (bytesLe [255] [255, 0] = true
        ∧ bytesLt [255, 0] (incrementLastByte [255]) = true) := by
  decide

/-- Claim C8 (amended): for every non-empty prefix whose last byte is below
0xFF, incrementing the last byte bounds the half-open range that contains
exactly the keys with that prefix: a key has the prefix iff it is at least
the prefix and strictly below the incremented bound. -/
theorem incrementLastByte_range_spec (p : List Nat) :
    ∀ k, p ≠ [] → lastByte p < 255 →
      (List.isPrefixOf p k = true ↔
        (bytesLe p k = true ∧ bytesLt k (incrementLastByte p) = true)) := by
  induction p with
  | nil => intro k hne _; exact absurd rfl hne
  | cons a p2 ih =>
      intro k _ hlast
      cases p2 with
      | nil =>
          have ha : a < 255 := hlast
          have hmod : (a + 1) % 256 = a + 1 := Nat.mod_eq_of_lt (by omega)
          cases k with
          | nil => simp [List.isPrefixOf, bytesLe]
          | cons c k2 =>
              simp only [List.isPrefixOf, incrementLastByte, hmod, bytesLe, bytesLt,
                bytesLt_nil_right, Bool.or_eq_true, Bool.and_eq_true,
                decide_eq_true_eq, beq_iff_eq, Bool.false_eq_true, and_false,
                or_false, and_true]
              omega
      | cons b p3 =>
          have hlast2 : lastByte (b :: p3) < 255 := hlast
          cases k with
          | nil => simp [List.isPrefixOf, bytesLe]
          | cons c k2 =>
              have hih := ih k2 (by simp) hlast2
              simp only [List.isPrefixOf, incrementLastByte, bytesLe, bytesLt,
                Bool.or_eq_true, Bool.and_eq_true, decide_eq_true_eq, beq_iff_eq]
              constructor
              · rintro ⟨rfl, hpre⟩
                obtain ⟨hq, hr⟩ := hih.mp hpre
                exact ⟨Or.inr ⟨rfl, hq⟩, Or.inr ⟨rfl, hr⟩⟩
              · rintro ⟨h1, h2⟩
                rcases h1 with h1 | ⟨rfl, hq⟩
                · rcases h2 with h2 | ⟨rfl, -⟩ <;> omega
                · rcases h2 with h2 | ⟨-, hr⟩
                  · omega
                  · exact ⟨rfl, hih.mpr ⟨hq, hr⟩⟩

/-- Claim C8 witness: the prefix "/g" (bytes 47, 103) bounds its range; the
key "/ga" has the prefix and lies inside, as the equivalence states. -/
theorem incrementLastByte_range_spec_witness :
    ([47, 103] : List Nat) ≠ [] ∧ lastByte [47, 103] < 255
    ∧ (List.isPrefixOf [47, 103] [47, 103, 97] = true ↔
        (bytesLe [47, 103] [47, 103, 97] = true
          ∧ bytesLt [47, 103, 97] (incrementLastByte [47, 103]) = true)) :=
  ⟨by decide, by decide,
    incrementLastByte_range_spec [47, 103] [47, 103, 97] (by decide) (by decide)⟩

/-! ## Key codec injectivity (C7) -/

theorem string_data_append (s t : String) : (s ++ t).data = s.data ++ t.data := rfl

theorem string_eq_of_data {s t : String} (h : s.data = t.data) : s = t := by
  cases s
  cases t
  exact congrArg String.mk h

theorem append_splitSep (sep : Char) (xs : List Char) :
    ∀ (ys a b : List Char), sep ∉ xs → sep ∉ ys →
      xs ++ sep :: a = ys ++ sep :: b → xs = ys ∧ a = b := by
  induction xs with
  | nil =>
      intro ys a b _ hys h
      cases ys with
      | nil => simpa using h
      | cons y ys2 =>
          rw [List.nil_append, List.cons_append] at h
          injection h with h1 h2
          exact absurd (by rw [h1]; exact List.mem_cons_self y ys2) hys
  | cons x xs2 ih =>
      intro ys a b hxs hys h
      cases ys with
      | nil =>
          rw [List.cons_append, List.nil_append] at h
          injection h with h1 h2
          exact absurd (by rw [← h1]; exact List.mem_cons_self x xs2) hxs
      | cons y ys2 =>
          rw [List.cons_append, List.cons_append] at h
          injection h with h1 h2
          obtain ⟨hxy, hab⟩ := ih ys2 a b
            (fun hm => hxs (List.mem_cons_of_mem x hm))
            (fun hm => hys (List.mem_cons_of_mem y hm)) h2
          exact ⟨by rw [h1, hxy], hab⟩

theorem append_splitSeg (sep : Char) (xs : List Char) :
    ∀ (ys a b : List Char), sep ∉ xs → sep ∉ ys →
      (a = [] ∨ ∃ a2, a = sep :: a2) → (b = [] ∨ ∃ b2, b = sep :: b2) →
      xs ++ a = ys ++ b → xs = ys ∧ a = b := by
  induction xs with
  | nil =>
      intro ys a b _ hys ha _ h
      cases ys with
      | nil => exact ⟨rfl, by simpa using h⟩
      | cons y ys2 =>
          rw [List.nil_append, List.cons_append] at h
          rcases ha with rfl | ⟨a2, rfl⟩
          · exact absurd h (by simp)
          · injection h with h1 h2
            exact absurd (by rw [h1]; exact List.mem_cons_self y ys2) hys
  | cons x xs2 ih =>
      intro ys a b hxs hys ha hb h
      cases ys with
      | nil =>
          rw [List.cons_append, List.nil_append] at h
          rcases hb with rfl | ⟨b2, rfl⟩
          · exact absurd h (by simp)
          · injection h with h1 h2
            exact absurd (by rw [← h1]; exact List.mem_cons_self x xs2) hxs
      | cons y ys2 =>
          rw [List.cons_append, List.cons_append] at h
          injection h with h1 h2
          obtain ⟨hxy, hab⟩ := ih ys2 a b
            (fun hm => hxs (List.mem_cons_of_mem x hm))
            (fun hm => hys (List.mem_cons_of_mem y hm)) ha hb h2
          exact ⟨by rw [h1, hxy], hab⟩

theorem data_slash_streams : "/streams/".data = '/' :: ("streams".data ++ ['/']) := rfl

theorem data_slash_measures : "/measures/".data = '/' :: ("measures".data ++ ['/']) := rfl

theorem data_slash_indexRules :
    "/index-rules/".data = '/' :: ("index-rules".data ++ ['/']) := rfl

theorem data_slash_indexRuleBindings :
    "/index-rule-bindings/".data = '/' :: ("index-rule-bindings".data ++ ['/']) := rfl

theorem data_slash_metaGroup :
    "/__meta_group__".data = '/' :: "__meta_group__".data := rfl

theorem keyOf_data (e : EntityId) :
    (keyOf e).data =
      "/groups/".data ++ ((groupOf e).data ++ '/' :: (segOf e ++ tailOf e)) := by
  cases e <;>
    simp [keyOf, formatGroupKey, formatStreamKey, formatMeasureKey, formatIndexRuleKey,
      formatIndexRuleBindingKey, formatKey, GroupsKeyPre, GroupMetadataKey, StreamKeyPre,
      MeasureKeyPre, IndexRuleKeyPre, IndexRuleBindingKeyPre, groupOf, segOf, tailOf,
      string_data_append, data_slash_streams, data_slash_measures, data_slash_indexRules,
      data_slash_indexRuleBindings, data_slash_metaGroup, List.append_assoc]

theorem wf_group_noSlash (e : EntityId) (h : e.wf = true) : '/' ∉ (groupOf e).data := by
  cases e <;>
    · simp only [EntityId.wf, noSlash, Bool.and_eq_true, decide_eq_true_eq] at h
      simp only [groupOf]
      first
      | exact h
      | exact h.1

theorem segOf_noSlash (e : EntityId) : '/' ∉ segOf e := by
  cases e <;> (simp only [segOf]; decide)

theorem tailOf_shape (e : EntityId) : tailOf e = [] ∨ ∃ t, tailOf e = '/' :: t := by
  cases e with
  | group g => exact Or.inl rfl
  | stream g n => exact Or.inr ⟨n.data, rfl⟩
  | measure g n => exact Or.inr ⟨n.data, rfl⟩
  | indexRule g n => exact Or.inr ⟨n.data, rfl⟩
  | indexRuleBinding g n => exact Or.inr ⟨n.data, rfl⟩

theorem entityId_eq_of_parts (e₁ e₂ : EntityId) (hg : groupOf e₁ = groupOf e₂)
    (hs : segOf e₁ = segOf e₂) (ht : tailOf e₁ = tailOf e₂) : e₁ = e₂ := by
  cases e₁ <;> cases e₂ <;>
    first
    | (simp only [segOf] at hs; exact absurd hs (by decide))
    | (simp only [groupOf] at hg
       simp only [tailOf] at ht
       injection ht with hth ht2
       rw [hg, string_eq_of_data ht2])
    | (simp only [groupOf] at hg; rw [hg])

/-- Claim C7 counterexample: the codec is not injective on arbitrary
(group, kind, name) triples: the stream named "x/measures/y" in group "a"
and the measure named "y" in group "a/streams/x" are distinct identities
with the same computed key. -/
theorem formatKey_injective_counterexample :
    keyOf (.stream "a" "x/measures/y") = keyOf (.measure "a/streams/x" "y")
    ∧ EntityId.stream "a" "x/measures/y" ≠ EntityId.measure "a/streams/x" "y" := by
  constructor
  · rfl
  · decide

/-- Claim C7 (amended): the key codec is deterministic and produces the
claimed key shapes; it is injective on identities whose group and name
components contain no slash (a group being identified by its single name,
the other kinds by group and name). -/
theorem keyOf_injective_slashFree :
    (∀ g n, formatStreamKey g n = "/groups/" ++ g ++ "/streams/" ++ n)
    ∧ (∀ g n, formatMeasureKey g n = "/groups/" ++ g ++ "/measures/" ++ n)
    ∧ (∀ g n, formatIndexRuleKey g n = "/groups/" ++ g ++ "/index-rules/" ++ n)
    ∧ (∀ g n,
        formatIndexRuleBindingKey g n = "/groups/" ++ g ++ "/index-rule-bindings/" ++ n)
    ∧ (∀ g, formatGroupKey g = "/groups/" ++ g ++ "/__meta_group__")
    ∧ ∀ e₁ e₂ : EntityId, e₁.wf = true → e₂.wf = true → keyOf e₁ = keyOf e₂ → e₁ = e₂ := by
  refine ⟨fun g n => rfl, fun g n => rfl, fun g n => rfl, fun g n => rfl, fun g => rfl,
    fun e₁ e₂ h₁ h₂ hk => ?_⟩
  have hd := congrArg String.data hk
  rw [keyOf_data, keyOf_data] at hd
  have hd2 := List.append_cancel_left hd
  obtain ⟨hgd, hrest⟩ := append_splitSep '/' (groupOf e₁).data (groupOf e₂).data
    (segOf e₁ ++ tailOf e₁) (segOf e₂ ++ tailOf e₂)
    (wf_group_noSlash e₁ h₁) (wf_group_noSlash e₂ h₂) hd2
  obtain ⟨hs, ht⟩ := append_splitSeg '/' (segOf e₁) (segOf e₂) (tailOf e₁) (tailOf e₂)
    (segOf_noSlash e₁) (segOf_noSlash e₂) (tailOf_shape e₁) (tailOf_shape e₂) hrest
  exact entityId_eq_of_parts e₁ e₂ (string_eq_of_data hgd) hs ht

/-- Claim C7 witness: a concrete slash-free stream identity satisfies the
well-formedness hypotheses, and the codec computes the claimed shape. -/
theorem keyOf_injective_slashFree_witness :
    (EntityId.stream "default" "sw").wf = true
    ∧ formatStreamKey "default" "sw" = "/groups/" ++ "default" ++ "/streams/" ++ "sw"
    ∧ EntityId.stream "default" "sw" = EntityId.stream "default" "sw" :=
  ⟨by decide, keyOf_injective_slashFree.1 "default" "sw",
    keyOf_injective_slashFree.2.2.2.2.2 (.stream "default" "sw") (.stream "default" "sw")
      (by decide) (by decide) rfl⟩

end Banyan
